import Mathlib

/-!
Verification development for the DROPMO peer-to-peer file transfer
application.

The development embeds three parts of the program:

1. the presence registry of the signaling server (server.js): a map from
   socket id to the registered peer identifier, updated by the
   register-peer and disconnect handlers.  The broadcast of the current
   identifier set and the reply to the get-active-peers query are not
   present in the server source; they are modelled from the specification
   and marked as such.
2. the transfer session of the latest client revision (App.vue, second
   revision): the receiver data handler with its ready-ack / metadata /
   chunk discrimination and greater-or-equal completion check, and the
   sender with its ready-gated transfer start and sequential 64 KiB
   slicing loop.
3. the earliest client revision (part_000): its metadata object literal
   with a duplicated type key, and its receiver accounting that adds an
   undefined byteLength.
-/

/-! ## Presence registry (server.js) -/

/-- The users object of server.js: an association of socket id to the
registered peer identifier. -/
abbrev UsersMap := List (String × String)

/-- Effect of the register-peer handler on the users object:
the JavaScript assignment users[socket.id] = peerId replaces the value
under an existing key and otherwise adds the key. -/
def setUser (m : UsersMap) (sid pid : String) : UsersMap :=
  if m.any (fun p => p.1 = sid) then
    m.map (fun p => if p.1 = sid then (sid, pid) else p)
  else
    m ++ [(sid, pid)]

/-- Effect of the disconnect handler: delete users[socket.id]. -/
def delUser (m : UsersMap) (sid : String) : UsersMap :=
  m.filter (fun p => p.1 ≠ sid)

/-- Modelled from the spec: snapshot() returns the current set of
registered identifiers (the values of the users object).  The server
source stores the map but has no snapshot sender of its own. -/
def snapshot (m : UsersMap) : List String :=
  m.map Prod.snd

/-- An operation arriving at the signaling server: a register-peer
message, a transport disconnect, or a get-active-peers query. -/
inductive RegOp
  | register (sid pid : String)
  | disconnect (sid : String)
  | query (sid : String)
deriving DecidableEq

/-- An observable output of the registry: a broadcast of the identifier
set to a list of recipient connections, or a snapshot reply to a single
querying connection. -/
inductive RegOut
  | broadcast (recipients : List String) (ids : List String)
  | reply (dest : String) (ids : List String)
deriving DecidableEq

/-- Modelled from the spec: the broadcast side effect of register and
deregister pushes snapshot() to every currently registered connection.
The server source under src only stores the map; the comment in its
register-peer handler leaves the broadcast to a revision that is not in
src, so the broadcast content is taken from the specification. -/
def broadcastOut (m : UsersMap) : RegOut :=
  RegOut.broadcast (m.map Prod.fst) (snapshot m)

/-- One step of the registry.  The map updates are the ones of the
server.js handlers; the emitted broadcast (for register and disconnect)
and the query reply are modelled from the spec, which sends the
post-operation snapshot to every registered connection, and answers a
query with the current snapshot to that client only. -/
def regStep (m : UsersMap) (op : RegOp) : UsersMap × List RegOut :=
  match op with
  | RegOp.register sid pid =>
      let m2 := setUser m sid pid
      (m2, [broadcastOut m2])
  | RegOp.disconnect sid =>
      let m2 := delUser m sid
      (m2, [broadcastOut m2])
  | RegOp.query sid =>
      (m, [RegOut.reply sid (snapshot m)])

/-- Run of the registry over a sequence of operations, collecting all
emitted outputs in order. -/
def regRun (m : UsersMap) (ops : List RegOp) : UsersMap × List RegOut :=
  match ops with
  | [] => (m, [])
  | op :: rest =>
      let step := regStep m op
      let run := regRun step.1 rest
      (run.1, step.2 ++ run.2)

/-- Recognizer for broadcast outputs. -/
def isBroadcast : RegOut → Bool
  | RegOut.broadcast _ _ => true
  | RegOut.reply _ _ => false

/-- Recognizer for the state-changing operations (register and
deregister). -/
def isChange : RegOp → Bool
  | RegOp.register _ _ => true
  | RegOp.disconnect _ => true
  | RegOp.query _ => false

/-! ## Receiver session (App.vue, second revision) -/

/-- A message arriving on the data connection of the receiver: a control
object carrying only a type discriminator (ready-ack, or any other
non-metadata type), a metadata object, or a raw byte buffer.  Bytes are
modelled as natural numbers. -/
inductive Msg
  | control (t : String)
  | metadataMsg (nm mi : String) (sz : Nat)
  | chunk (b : List Nat)
deriving DecidableEq

/-- State held by the receiver closure: the fileChunks array, the
fileMetadata record (name, mime type, declared size; none while the
metadata object has not arrived), the last reported percentage, whether
receivedFileData has been set (completion), and the assembled blob
content. -/
structure ReceiverState where
  chunks : List (List Nat)
  meta : Option (String × String × Nat)
  lastProgress : Option Nat
  done : Bool
  assembled : Option (List Nat)
deriving DecidableEq

/-- Initial receiver state: empty chunk buffer, no metadata, nothing
reported, not complete. -/
def recvInit : ReceiverState :=
  { chunks := [], meta := none, lastProgress := none, done := false, assembled := none }

/-- The receivedSize accumulator of the receiver: the reduce that sums
the byteLength of every buffered chunk. -/
def receivedSize (cs : List (List Nat)) : Nat :=
  (cs.map List.length).sum

/-- One execution of the data handler of the second revision.  A control
object is ignored (ready-ack returns, other types fall through both
discriminator tests); a metadata object records name, mime type and
size; everything else is treated as a chunk: it is appended to
fileChunks and the sum of byte lengths is recomputed.  When metadata is
present the percentage (100 when the declared size is 0, else the
rounded ratio) is reported, and when receivedSize is greater or equal to
the declared size the chunks are assembled into the blob and completion
is signalled. -/
def recvStep (s : ReceiverState) (msg : Msg) : ReceiverState :=
  match msg with
  | Msg.control _ => s
  | Msg.metadataMsg nm mi sz => { s with meta := some (nm, mi, sz) }
  | Msg.chunk b =>
      let cs := s.chunks ++ [b]
      match s.meta with
      | none => { s with chunks := cs }
      | some md =>
          let sz := md.2.2
          let rs := receivedSize cs
          let pct := if sz = 0 then 100 else (200 * rs + sz) / (2 * sz)
          if sz ≤ rs then
            { s with chunks := cs, lastProgress := some pct,
                     done := true, assembled := some cs.flatten }
          else
            { s with chunks := cs, lastProgress := some pct }

/-- Run of the receiver over a list of incoming messages. -/
def recvRun (s : ReceiverState) (ms : List Msg) : ReceiverState :=
  ms.foldl recvStep s

/-! ## Sender session (App.vue, second revision) -/

/-- The chunk size of startFileTransfer: 64 KiB. -/
def chunkSize : Nat := 64 * 1024

/-- The sequential slicing loop of startFileTransfer: readSlice(0) is
always issued, each onload sends the slice read at the current offset
(at most chunkSize bytes) and continues while the offset is below the
file size.  A source of at most chunkSize bytes, the empty source
included, therefore yields exactly one chunk. -/
def senderChunks (s : List Nat) : List (List Nat) :=
  if s.length ≤ chunkSize then [s]
  else s.take chunkSize :: senderChunks (s.drop chunkSize)
termination_by s.length
decreasing_by
  have hc : chunkSize = 65536 := rfl
  simp only [List.length_drop]
  omega

/-- The Blob construction of the receiver: concatenation of the buffered
chunks in arrival order. -/
def reassemble (cs : List (List Nat)) : List Nat :=
  cs.flatten

/-- A message sent by the sender over the data connection. -/
inductive OutMsg
  | readyAck
  | metadata (nm mi : String) (sz : Nat)
  | chunk (b : List Nat)
deriving DecidableEq

/-- An event observed by the sender connection: the open and close
callbacks, a control object with a type discriminator, or a raw
buffer. -/
inductive SendEvent
  | onOpen
  | onClose
  | recvControl (t : String)
  | recvRaw (b : List Nat)
deriving DecidableEq

/-- The sender closure state: the isReady flag guarding the transfer
start. -/
structure SenderState where
  isReady : Bool
deriving DecidableEq

/-- Initial sender state: isReady is false. -/
def senderInit : SenderState := { isReady := false }

/-- The transmission started by startFileTransfer: the metadata object
(name, mime type, size of the file) followed by the chunks of the
slicing loop. -/
def transferMsgs (nm mi : String) (content : List Nat) : List OutMsg :=
  OutMsg.metadata nm mi content.length :: (senderChunks content).map OutMsg.chunk

/-- One step of the sender of the second revision.  The open and close
callbacks send nothing.  A data object whose type is ready, while
isReady is still false, sets isReady, sends ready-ack and starts the
transfer; every other datum is ignored. -/
def senderStep (nm mi : String) (content : List Nat) (s : SenderState)
    (e : SendEvent) : SenderState × List OutMsg :=
  match e with
  | SendEvent.onOpen => (s, [])
  | SendEvent.onClose => (s, [])
  | SendEvent.recvRaw _ => (s, [])
  | SendEvent.recvControl t =>
      if t = "ready" ∧ s.isReady = false then
        ({ isReady := true }, OutMsg.readyAck :: transferMsgs nm mi content)
      else
        (s, [])

/-- Run of the sender over a list of events, collecting everything it
sends in order. -/
def senderRun (nm mi : String) (content : List Nat) (s : SenderState)
    (es : List SendEvent) : SenderState × List OutMsg :=
  match es with
  | [] => (s, [])
  | e :: rest =>
      let step := senderStep nm mi content s e
      let run := senderRun nm mi content step.1 rest
      (run.1, step.2 ++ run.2)

/-- Recognizer for the metadata message, the start of one transfer
stream. -/
def isMetadataOut : OutMsg → Bool
  | OutMsg.metadata _ _ _ => true
  | _ => false

/-! ## Earliest revision (part_000) -/

/-- A JavaScript primitive value as it appears in the earliest metadata
record. -/
inductive JsVal
  | str (s : String)
  | num (n : Nat)
deriving DecidableEq

/-- Evaluation of a JavaScript object literal given as an ordered field
list: a duplicated key keeps the value of its last occurrence. -/
def objGet (fields : List (String × JsVal)) (k : String) : Option JsVal :=
  (fields.reverse.find? (fun p => p.1 = k)).map Prod.snd

/-- A file as the earliest sender sees it: name, MIME type (the file
type property) and content bytes. -/
structure JsFile where
  name : String
  mime : String
  content : List Nat
deriving DecidableEq

/-- The metadata object literal of the earliest sendFile, field by field
in source order: it assigns the key type twice, first the string
metadata and then the file MIME type. -/
def metadataMsgV0 (f : JsFile) : List (String × JsVal) :=
  [("type", JsVal.str "metadata"),
   ("name", JsVal.str f.name),
   ("type", JsVal.str f.mime),
   ("size", JsVal.num f.content.length)]

/-- A message on the wire in the earliest revision: a structured record
(field list) or a raw buffer. -/
inductive MsgV0
  | record (fields : List (String × JsVal))
  | buffer (b : List Nat)
deriving DecidableEq

/-- A JavaScript number that may be NaN, as produced by adding
undefined. -/
inductive JsNum
  | nan
  | val (n : Nat)
deriving DecidableEq

/-- JavaScript addition of a number accumulator and a possibly undefined
operand: adding undefined gives NaN, and NaN absorbs everything. -/
def jsAdd : JsNum → Option Nat → JsNum
  | _, none => JsNum.nan
  | JsNum.nan, _ => JsNum.nan
  | JsNum.val a, some b => JsNum.val (a + b)

/-- The byteLength property: defined on a buffer, undefined on a
structured record. -/
def byteLengthV0 : MsgV0 → Option Nat
  | MsgV0.buffer b => some b.length
  | MsgV0.record _ => none

/-- The receivedSize reduce of the earliest receiver: it folds jsAdd of
byteLength over the buffered entries starting from 0. -/
def receivedSizeV0 (cs : List MsgV0) : JsNum :=
  cs.foldl (fun acc c => jsAdd acc (byteLengthV0 c)) (JsNum.val 0)

/-- The discriminator test of the earliest receiver: data.type is the
string metadata.  On a raw buffer the property is undefined and the test
is false; on a record it reads the object literal field. -/
def dataTypeIsMetadata : MsgV0 → Bool
  | MsgV0.record fs => objGet fs "type" = some (JsVal.str "metadata")
  | MsgV0.buffer _ => false

/-- Strict equality of the receivedSize accumulator and the recorded
metadata size: false when either side is NaN or undefined. -/
def jsEqNum : JsNum → Option Nat → Bool
  | JsNum.nan, _ => false
  | JsNum.val _, none => false
  | JsNum.val a, some b => a = b

/-- State of the earliest receiver closure: the fileChunks array (which
may hold records), the recorded metadata size (undefined until a record
passes the discriminator test) and whether the received file was
surfaced. -/
structure RecvV0 where
  chunks : List MsgV0
  metaSize : Option Nat
  done : Bool
deriving DecidableEq

/-- Initial state of the earliest receiver. -/
def recvV0Init : RecvV0 :=
  { chunks := [], metaSize := none, done := false }

/-- One execution of the earliest data handler: a datum passing the
metadata discriminator records the size field; everything else is pushed
onto fileChunks, the receivedSize reduce is recomputed, and the file is
surfaced exactly when receivedSize strictly equals the recorded size. -/
def recvV0Step (s : RecvV0) (m : MsgV0) : RecvV0 :=
  if dataTypeIsMetadata m then
    { s with metaSize :=
        match m with
        | MsgV0.record fs =>
            match objGet fs "size" with
            | some (JsVal.num n) => some n
            | _ => none
        | MsgV0.buffer _ => none }
  else
    let cs := s.chunks ++ [m]
    if jsEqNum (receivedSizeV0 cs) s.metaSize then
      { s with chunks := cs, done := true }
    else
      { s with chunks := cs }

/-- Run of the earliest receiver over a list of messages. -/
def recvV0Run (s : RecvV0) (ms : List MsgV0) : RecvV0 :=
  ms.foldl recvV0Step s

/-- The stream emitted by the earliest sendFile: the metadata object
literal followed by the chunks of the slicing loop. -/
def sendStreamV0 (f : JsFile) : List MsgV0 :=
  MsgV0.record (metadataMsgV0 f) :: (senderChunks f.content).map MsgV0.buffer

/-! ## Helper lemmas -/

/-- Unfolding equation of the slicing loop. -/
theorem senderChunks_eq (s : List Nat) :
    senderChunks s = if s.length ≤ chunkSize then [s]
      else s.take chunkSize :: senderChunks (s.drop chunkSize) := by
  rw [senderChunks]

/-- The slicing loop always emits at least one chunk. -/
theorem senderChunks_ne_nil (s : List Nat) : senderChunks s ≠ [] := by
  rw [senderChunks_eq]
  split <;> simp

/-- Concatenating the emitted chunks gives back the source. -/
theorem senderChunks_flatten (s : List Nat) : (senderChunks s).flatten = s := by
  induction s using senderChunks.induct with
  | case1 s h =>
    rw [senderChunks_eq, if_pos h]
    simp
  | case2 s h ih =>
    rw [senderChunks_eq, if_neg h]
    simp [ih, List.take_append_drop]

/-- Every emitted chunk holds at most chunkSize bytes. -/
theorem senderChunks_mem_length (s : List Nat) :
    ∀ c ∈ senderChunks s, c.length ≤ chunkSize := by
  induction s using senderChunks.induct with
  | case1 s h =>
    rw [senderChunks_eq, if_pos h]
    intro c hc
    simp only [List.mem_singleton] at hc
    subst hc
    exact h
  | case2 s h ih =>
    rw [senderChunks_eq, if_neg h]
    intro c hc
    rcases List.mem_cons.mp hc with rfl | hc2
    · simp [List.length_take]
    · exact ih c hc2

/-- For a nonempty source every emitted chunk is nonempty. -/
theorem senderChunks_mem_ne_nil :
    ∀ (s : List Nat), s ≠ [] → ∀ c ∈ senderChunks s, c ≠ [] := by
  intro s
  induction s using senderChunks.induct with
  | case1 s h =>
    intro hs c hc
    rw [senderChunks_eq, if_pos h] at hc
    simp only [List.mem_singleton] at hc
    subst hc
    exact hs
  | case2 s h ih =>
    intro hs c hc
    rw [senderChunks_eq, if_neg h] at hc
    have hlen : chunkSize < s.length := lt_of_not_le h
    rcases List.mem_cons.mp hc with rfl | hc2
    · intro hnil
      have hlen0 := congrArg List.length hnil
      rw [List.length_take] at hlen0
      simp only [List.length_nil] at hlen0
      have hcv : chunkSize = 65536 := rfl
      omega
    · have hdrop : s.drop chunkSize ≠ [] := by
        intro hd
        have hlen0 := congrArg List.length hd
        simp only [List.length_drop, List.length_nil] at hlen0
        omega
      exact ih hdrop c hc2

/-- Every chunk except possibly the last one is exactly chunkSize
long. -/
theorem senderChunks_dropLast_length :
    ∀ (s : List Nat), ∀ c ∈ (senderChunks s).dropLast, c.length = chunkSize := by
  intro s
  induction s using senderChunks.induct with
  | case1 s h =>
    rw [senderChunks_eq, if_pos h]
    simp
  | case2 s h ih =>
    rw [senderChunks_eq, if_neg h]
    intro c hc
    rw [List.dropLast_cons_of_ne_nil (senderChunks_ne_nil (s.drop chunkSize))] at hc
    rcases List.mem_cons.mp hc with rfl | hc2
    · have hlen : chunkSize ≤ s.length := le_of_lt (lt_of_not_le h)
      simp [List.length_take, Nat.min_def, hlen]
    · exact ih c hc2

/-- Sum of the lengths of a take is bounded by the sum over the whole
list. -/
theorem sum_take_le (l : List Nat) (n : Nat) : (l.take n).sum ≤ l.sum := by
  conv_rhs => rw [← List.take_append_drop n l]
  rw [List.sum_append]
  omega

/-- The received byte count is additive over buffer concatenation. -/
theorem receivedSize_append (a b : List (List Nat)) :
    receivedSize (a ++ b) = receivedSize a + receivedSize b := by
  simp [receivedSize]

/-- Effect of one chunk arrival once metadata is present. -/
theorem recvStep_chunk_of_meta (s : ReceiverState) (b : List Nat)
    (nm mi : String) (sz : Nat) (h : s.meta = some (nm, mi, sz)) :
    (recvStep s (Msg.chunk b)).chunks = s.chunks ++ [b] ∧
    (recvStep s (Msg.chunk b)).meta = some (nm, mi, sz) ∧
    (recvStep s (Msg.chunk b)).done
      = (s.done || decide (sz ≤ receivedSize (s.chunks ++ [b]))) := by
  simp only [recvStep, h]
  by_cases hle : sz ≤ receivedSize (s.chunks ++ [b])
  · simp [hle]
  · simp [hle]

/-- Effect of a run of chunk arrivals once metadata is present: the
buffer grows by the chunks in order, the metadata is unchanged, and
completion holds exactly when it already held or at least one chunk
arrived and the accumulated byte count reached the declared size. -/
theorem recvRun_chunks_of_meta (nm mi : String) (sz : Nat) :
    ∀ (cs : List (List Nat)) (s : ReceiverState), s.meta = some (nm, mi, sz) →
      (recvRun s (cs.map Msg.chunk)).chunks = s.chunks ++ cs ∧
      (recvRun s (cs.map Msg.chunk)).meta = some (nm, mi, sz) ∧
      ((recvRun s (cs.map Msg.chunk)).done = true ↔
        (s.done = true ∨
          (cs ≠ [] ∧ sz ≤ receivedSize s.chunks + (cs.map List.length).sum))) := by
  intro cs
  induction cs with
  | nil =>
    intro s h
    simp [recvRun, h]
  | cons c cs ih =>
    intro s h
    have hstep := recvStep_chunk_of_meta s c nm mi sz h
    have ihs := ih (recvStep s (Msg.chunk c)) hstep.2.1
    have hrs : receivedSize (s.chunks ++ [c]) = receivedSize s.chunks + c.length := by
      simp [receivedSize_append, receivedSize]
    refine ⟨?_, ?_, ?_⟩
    · show (recvRun (recvStep s (Msg.chunk c)) (cs.map Msg.chunk)).chunks = _
      rw [ihs.1, hstep.1, List.append_assoc]
      rfl
    · exact ihs.2.1
    · show ((recvRun (recvStep s (Msg.chunk c)) (cs.map Msg.chunk)).done = true ↔ _)
      rw [ihs.2.2, hstep.1, hstep.2.2, hrs]
      constructor
      · intro hL
        rcases hL with hB | ⟨hne, hp⟩
        · rcases (Bool.or_eq_true _ _).mp hB with hd | hdec
          · exact Or.inl hd
          · have hdd := of_decide_eq_true hdec
            refine Or.inr ⟨by simp, ?_⟩
            simp only [List.map_cons, List.sum_cons]
            omega
        · refine Or.inr ⟨by simp, ?_⟩
          simp only [List.map_cons, List.sum_cons]
          omega
      · intro hR
        rcases hR with hd | ⟨hne, hp⟩
        · exact Or.inl ((Bool.or_eq_true _ _).mpr (Or.inl hd))
        · simp only [List.map_cons, List.sum_cons] at hp
          by_cases h2 : sz ≤ receivedSize s.chunks + c.length
          · exact Or.inl ((Bool.or_eq_true _ _).mpr (Or.inr (decide_eq_true h2)))
          · refine Or.inr ⟨?_, by omega⟩
            intro hcs
            subst hcs
            simp only [List.map_nil, List.sum_nil, Nat.add_zero] at hp
            exact h2 hp

/-- A run of chunk arrivals with no metadata recorded only grows the
buffer: nothing is reported and nothing completes. -/
theorem recvRun_chunks_no_meta :
    ∀ (cs : List (List Nat)) (s : ReceiverState), s.meta = none →
      recvRun s (cs.map Msg.chunk)
        = { s with chunks := s.chunks ++ cs } := by
  intro cs
  induction cs with
  | nil =>
    intro s h
    simp [recvRun]
  | cons c cs ih =>
    intro s h
    show recvRun (recvStep s (Msg.chunk c)) (cs.map Msg.chunk) = _
    have hstep : recvStep s (Msg.chunk c) = { s with chunks := s.chunks ++ [c] } := by
      simp [recvStep, h]
    rw [hstep, ih _ (by simp [h])]
    simp


/-- A sender run that never receives a ready object sends nothing and
keeps its state unchanged. -/
theorem senderRun_no_ready (nm mi : String) (content : List Nat) :
    ∀ (es : List SendEvent) (s : SenderState),
      SendEvent.recvControl "ready" ∉ es →
      senderRun nm mi content s es = (s, []) := by
  intro es
  induction es with
  | nil =>
    intro s _
    rfl
  | cons e rest ih =>
    intro s hmem
    have hrest : SendEvent.recvControl "ready" ∉ rest := by
      intro hr
      exact hmem (List.mem_cons_of_mem _ hr)
    cases e with
    | onOpen => simp [senderRun, senderStep, ih s hrest]
    | onClose => simp [senderRun, senderStep, ih s hrest]
    | recvRaw b => simp [senderRun, senderStep, ih s hrest]
    | recvControl t =>
      have ht : ¬ t = "ready" := by
        intro h
        subst h
        exact hmem (List.mem_cons_self _ _)
      simp [senderRun, senderStep, ht, ih s hrest]

/-- Chunk messages are not metadata messages. -/
theorem filter_meta_map_chunk (l : List (List Nat)) :
    (l.map OutMsg.chunk).filter isMetadataOut = [] := by
  induction l with
  | nil => rfl
  | cons c l ih => simp [isMetadataOut, ih]

/-- Number of metadata messages (transfer streams) emitted over a run:
one exactly when the guard was down at the start and some ready object
arrived, zero otherwise. -/
theorem senderRun_meta_count (nm mi : String) (content : List Nat) :
    ∀ (es : List SendEvent) (s : SenderState),
      (((senderRun nm mi content s es).2).filter isMetadataOut).length
        = if s.isReady = false ∧ SendEvent.recvControl "ready" ∈ es then 1 else 0 := by
  intro es
  induction es with
  | nil =>
    intro s
    simp [senderRun]
  | cons e rest ih =>
    intro s
    cases e with
    | onOpen =>
      show (((senderRun nm mi content s rest).2).filter isMetadataOut).length = _
      rw [ih s]
      simp
    | onClose =>
      show (((senderRun nm mi content s rest).2).filter isMetadataOut).length = _
      rw [ih s]
      simp
    | recvRaw b =>
      show (((senderRun nm mi content s rest).2).filter isMetadataOut).length = _
      rw [ih s]
      simp
    | recvControl t =>
      by_cases ht : t = "ready"
      · subst ht
        by_cases hr : s.isReady = false
        · have hstep : senderStep nm mi content s (SendEvent.recvControl "ready")
              = ({ isReady := true }, OutMsg.readyAck :: transferMsgs nm mi content) := by
            simp [senderStep, hr]
          simp only [senderRun, hstep, List.filter_append, List.length_append]
          rw [ih { isReady := true }]
          simp [transferMsgs, isMetadataOut, filter_meta_map_chunk, hr]
        · have hr2 : s.isReady = true := by
            revert hr
            cases s.isReady <;> simp
          have hstep : senderStep nm mi content s (SendEvent.recvControl "ready")
              = (s, []) := by
            simp [senderStep, hr2]
          simp only [senderRun, hstep, List.filter_append, List.length_append]
          rw [ih s]
          simp [hr2]
      · have hstep : senderStep nm mi content s (SendEvent.recvControl t) = (s, []) := by
          simp [senderStep, ht]
        have hmem : (SendEvent.recvControl "ready" ∈ SendEvent.recvControl t :: rest)
            ↔ (SendEvent.recvControl "ready" ∈ rest) := by
          simp [List.mem_cons]
          intro h
          exact absurd h.symm ht
        simp only [senderRun, hstep, List.filter_append, List.length_append]
        rw [ih s]
        by_cases hin : SendEvent.recvControl "ready" ∈ rest
        · simp [hin, hmem.mpr hin]
        · have hin2 : SendEvent.recvControl "ready" ∉ SendEvent.recvControl t :: rest := by
            intro h
            exact hin (hmem.mp h)
          simp [hin, hin2]

/-- The registering socket is among the keys of the map right after its
registration. -/
theorem mem_setUser_fst (m : UsersMap) (sid pid : String) :
    sid ∈ (setUser m sid pid).map Prod.fst := by
  unfold setUser
  by_cases h : m.any (fun p => p.1 = sid)
  · rw [if_pos h]
    rcases List.any_eq_true.mp h with ⟨p, hp, hps⟩
    have hps2 : p.1 = sid := of_decide_eq_true hps
    rw [List.map_map]
    refine List.mem_map.mpr ⟨p, hp, ?_⟩
    simp [hps2]
  · rw [if_neg h]
    simp

/-- Snapshot content characterization: an identifier is in the snapshot
exactly when some connection currently registers it. -/
theorem mem_snapshot (m : UsersMap) (pid : String) :
    pid ∈ snapshot m ↔ ∃ s, (s, pid) ∈ m := by
  unfold snapshot
  constructor
  · intro h
    rcases List.mem_map.mp h with ⟨a, ha, hap⟩
    exact ⟨a.1, by rwa [show (a.1, pid) = a from Prod.ext rfl hap.symm]⟩
  · rintro ⟨s, hs⟩
    exact List.mem_map.mpr ⟨(s, pid), hs, rfl⟩

/-- Each register or deregister operation emits exactly one broadcast
and a query emits none, over any run. -/
theorem regRun_broadcast_count :
    ∀ (ops : List RegOp) (m : UsersMap),
      ((regRun m ops).2.filter isBroadcast).length
        = (ops.filter isChange).length := by
  intro ops
  induction ops with
  | nil =>
    intro m
    rfl
  | cons op rest ih =>
    intro m
    cases op with
    | register sid pid =>
      simp only [regRun, regStep, List.filter_append, List.length_append]
      rw [ih]
      simp only [List.filter_cons, List.filter_nil]
      simp [isBroadcast, isChange, broadcastOut]
      omega
    | disconnect sid =>
      simp only [regRun, regStep, List.filter_append, List.length_append]
      rw [ih]
      simp only [List.filter_cons, List.filter_nil]
      simp [isBroadcast, isChange, broadcastOut]
      omega
    | query sid =>
      simp only [regRun, regStep, List.filter_append, List.length_append]
      rw [ih]
      simp only [List.filter_cons, List.filter_nil]
      simp [isBroadcast, isChange]

/-- Strict equality against an undefined size is always false. -/
theorem jsEqNum_none (x : JsNum) : jsEqNum x none = false := by
  cases x <;> rfl

/-- A NaN accumulator absorbs every further addition. -/
theorem foldl_jsAdd_nan (ms : List MsgV0) :
    ms.foldl (fun acc c => jsAdd acc (byteLengthV0 c)) JsNum.nan = JsNum.nan := by
  induction ms with
  | nil => rfl
  | cons m rest ih =>
    show List.foldl _ (jsAdd JsNum.nan (byteLengthV0 m)) rest = JsNum.nan
    have h : jsAdd JsNum.nan (byteLengthV0 m) = JsNum.nan := by
      cases byteLengthV0 m <;> rfl
    rw [h, ih]

/-- Once a structured record sits first in the buffer, the receivedSize
reduce is NaN. -/
theorem receivedSizeV0_record_first (fs : List (String × JsVal)) (rest : List MsgV0) :
    receivedSizeV0 (MsgV0.record fs :: rest) = JsNum.nan := by
  show List.foldl _ (jsAdd (JsNum.val 0) (byteLengthV0 (MsgV0.record fs))) rest = JsNum.nan
  exact foldl_jsAdd_nan rest

/-- The duplicated type key of the earliest metadata literal: the value
actually carried under the type key is the file MIME type, the second
assignment having overwritten the first. -/
theorem objGet_metadataMsgV0_type (f : JsFile) :
    objGet (metadataMsgV0 f) "type" = some (JsVal.str f.mime) := by
  simp [objGet, metadataMsgV0]

/-- Consequently the earliest discriminator test rejects the metadata
record whenever the MIME type is not the literal string metadata. -/
theorem dataTypeIsMetadata_metadataMsgV0 (f : JsFile) (h : f.mime ≠ "metadata") :
    dataTypeIsMetadata (MsgV0.record (metadataMsgV0 f)) = false := by
  simp [dataTypeIsMetadata, objGet_metadataMsgV0_type, h]

/-- Every message of the earliest send stream fails the discriminator
test when the MIME type is not the literal string metadata. -/
theorem sendStreamV0_no_meta (f : JsFile) (h : f.mime ≠ "metadata") :
    ∀ m ∈ sendStreamV0 f, dataTypeIsMetadata m = false := by
  intro m hm
  rcases List.mem_cons.mp hm with rfl | hm2
  · exact dataTypeIsMetadata_metadataMsgV0 f h
  · rcases List.mem_map.mp hm2 with ⟨b, _, rfl⟩
    rfl

/-- A run of the earliest receiver over messages that all fail the
discriminator test records no metadata, never completes, and buffers
every message as a chunk. -/
theorem recvV0Run_no_meta :
    ∀ (ms : List MsgV0) (s : RecvV0),
      (∀ m ∈ ms, dataTypeIsMetadata m = false) →
      s.metaSize = none → s.done = false →
      (recvV0Run s ms).metaSize = none ∧ (recvV0Run s ms).done = false ∧
      (recvV0Run s ms).chunks = s.chunks ++ ms := by
  intro ms
  induction ms with
  | nil =>
    intro s _ h1 h2
    exact ⟨h1, h2, by simp [recvV0Run]⟩
  | cons m rest ih =>
    intro s hall h1 h2
    have hm : dataTypeIsMetadata m = false := hall m (List.mem_cons_self _ _)
    have hstep : recvV0Step s m = { s with chunks := s.chunks ++ [m] } := by
      unfold recvV0Step
      rw [hm]
      simp only [Bool.false_eq_true, if_false]
      rw [h1, jsEqNum_none]
      simp
    have hrest := ih { s with chunks := s.chunks ++ [m] }
      (fun x hx => hall x (List.mem_cons_of_mem _ hx)) h1 h2
    show (recvV0Run (recvV0Step s m) rest).metaSize = none ∧
         (recvV0Run (recvV0Step s m) rest).done = false ∧
         (recvV0Run (recvV0Step s m) rest).chunks = s.chunks ++ m :: rest
    rw [hstep]
    refine ⟨hrest.1, hrest.2.1, ?_⟩
    rw [hrest.2.2]
    simp

/-! ## Claim theorems -/

/-- C1: over any sequence of operations the registry emits exactly one
broadcast per register or deregister call (and none per query); each
such broadcast carries the full identifier snapshot taken after the
change and is addressed to every connection registered after the change,
the connection that just registered included.  The broadcast behavior is
modelled from the spec because the server source under src stores the
map without broadcasting. -/
theorem registry_broadcast_per_change (m : UsersMap) (ops : List RegOp) :
    ((regRun m ops).2.filter isBroadcast).length = (ops.filter isChange).length ∧
    (∀ sid pid, (regStep m (RegOp.register sid pid)).2
        = [RegOut.broadcast ((setUser m sid pid).map Prod.fst)
            (snapshot (setUser m sid pid))]) ∧
    (∀ sid pid, sid ∈ (setUser m sid pid).map Prod.fst) ∧
    (∀ sid, (regStep m (RegOp.disconnect sid)).2
        = [RegOut.broadcast ((delUser m sid).map Prod.fst)
            (snapshot (delUser m sid))]) :=
  ⟨regRun_broadcast_count ops m,
   fun _ _ => rfl,
   fun sid pid => mem_setUser_fst m sid pid,
   fun _ => rfl⟩

/-- C2 counterexample: with declared size 10, one chunk of 11 bytes
drives the accumulated byte count to 11, strictly above the declared
total, and completion nevertheless fires, refuting both the claimed
invariant and the claimed exact-equality completion condition. -/
theorem recv_overshoot_completes :
    receivedSize (recvRun recvInit
        [Msg.metadataMsg "f" "t" 10, Msg.chunk (List.replicate 11 7)]).chunks = 11 ∧
    (recvRun recvInit
        [Msg.metadataMsg "f" "t" 10, Msg.chunk (List.replicate 11 7)]).done = true ∧
    ¬ receivedSize (recvRun recvInit
        [Msg.metadataMsg "f" "t" 10, Msg.chunk (List.replicate 11 7)]).chunks ≤ 10 := by
  decide

/-- C2 amended: the accumulated byte count equals the sum of all chunk
lengths with no clamping, completion holds exactly when at least one
chunk arrived and that sum reached or exceeded the declared size, and
when the chunk stream never overshoots the declared size the claimed
invariant and exact-equality completion do hold at every point of the
run. -/
theorem recv_completion_ge (nm mi : String) (sz : Nat) (cs : List (List Nat)) :
    receivedSize (recvRun recvInit (Msg.metadataMsg nm mi sz :: cs.map Msg.chunk)).chunks
        = (cs.map List.length).sum ∧
    ((recvRun recvInit (Msg.metadataMsg nm mi sz :: cs.map Msg.chunk)).done = true
        ↔ (cs ≠ [] ∧ sz ≤ (cs.map List.length).sum)) ∧
    ((cs.map List.length).sum ≤ sz →
      ∀ n : Nat,
        receivedSize (recvRun recvInit
            (Msg.metadataMsg nm mi sz :: (cs.take n).map Msg.chunk)).chunks ≤ sz ∧
        ((recvRun recvInit
            (Msg.metadataMsg nm mi sz :: (cs.take n).map Msg.chunk)).done = true
          ↔ (cs.take n ≠ [] ∧ ((cs.take n).map List.length).sum = sz))) := by
  have hkey : ∀ ds : List (List Nat),
      receivedSize (recvRun recvInit (Msg.metadataMsg nm mi sz :: ds.map Msg.chunk)).chunks
          = (ds.map List.length).sum ∧
      ((recvRun recvInit (Msg.metadataMsg nm mi sz :: ds.map Msg.chunk)).done = true
          ↔ (ds ≠ [] ∧ sz ≤ (ds.map List.length).sum)) := by
    intro ds
    have h1 : recvRun recvInit (Msg.metadataMsg nm mi sz :: ds.map Msg.chunk)
        = recvRun (recvStep recvInit (Msg.metadataMsg nm mi sz)) (ds.map Msg.chunk) := rfl
    have hmeta : (recvStep recvInit (Msg.metadataMsg nm mi sz)).meta = some (nm, mi, sz) := rfl
    have hmain := recvRun_chunks_of_meta nm mi sz ds
      (recvStep recvInit (Msg.metadataMsg nm mi sz)) hmeta
    constructor
    · rw [h1, hmain.1]
      rfl
    · rw [h1, hmain.2.2]
      simp [recvStep, recvInit, receivedSize]
  refine ⟨(hkey cs).1, (hkey cs).2, ?_⟩
  intro hle n
  have htake : ((cs.take n).map List.length).sum ≤ sz := by
    calc ((cs.take n).map List.length).sum = ((cs.map List.length).take n).sum := by
          rw [List.map_take]
      _ ≤ (cs.map List.length).sum := sum_take_le _ n
      _ ≤ sz := hle
  refine ⟨?_, ?_⟩
  · rw [(hkey (cs.take n)).1]
    exact htake
  · rw [(hkey (cs.take n)).2]
    have harith : (sz ≤ ((cs.take n).map List.length).sum
        ↔ ((cs.take n).map List.length).sum = sz) := by omega
    rw [harith]

/-- C2 witness for the amended theorem, at declared size 3 and chunk
lengths 2 and 1. -/
theorem recv_completion_ge_witness :
    ((([[1, 2], [3]] : List (List Nat)).map List.length).sum ≤ 3) ∧
    (receivedSize (recvRun recvInit
        (Msg.metadataMsg "f" "t" 3 :: (([[1, 2], [3]] : List (List Nat)).take 1).map Msg.chunk)).chunks ≤ 3 ∧
      ((recvRun recvInit
          (Msg.metadataMsg "f" "t" 3 :: (([[1, 2], [3]] : List (List Nat)).take 1).map Msg.chunk)).done = true
        ↔ (([[1, 2], [3]] : List (List Nat)).take 1 ≠ [] ∧
           ((([[1, 2], [3]] : List (List Nat)).take 1).map List.length).sum = 3))) :=
  ⟨by decide, (recv_completion_ge "f" "t" 3 [[1, 2], [3]]).2.2 (by decide) 1⟩

/-- The slicing loop emits exactly one empty chunk for a zero-length
source. -/
theorem senderChunks_nil : senderChunks ([] : List Nat) = [[]] := by
  rw [senderChunks_eq]
  simp [chunkSize]

/-- C3 counterexample: a metadata message with declared size 0 alone
does not complete the transfer and reports no progress; the completion
check lives in the chunk branch only. -/
theorem recv_zero_size_metadata_alone :
    (recvRun recvInit [Msg.metadataMsg "e" "t" 0]).done = false ∧
    (recvRun recvInit [Msg.metadataMsg "e" "t" 0]).lastProgress = none := by
  decide

/-- C3 amended: for declared size 0 the receiver does not complete upon
the metadata message alone; the sender, whose slicing loop always issues
one read, sends exactly one empty chunk, and the receiver reports 100
percent and completes with the empty assembled payload upon that first
chunk. -/
theorem recv_zero_size_completes_on_chunk (nm mi : String) :
    (recvRun recvInit [Msg.metadataMsg nm mi 0]).done = false ∧
    senderChunks ([] : List Nat) = [[]] ∧
    (recvRun recvInit
        (Msg.metadataMsg nm mi 0 :: (senderChunks ([] : List Nat)).map Msg.chunk)).done = true ∧
    (recvRun recvInit
        (Msg.metadataMsg nm mi 0 :: (senderChunks ([] : List Nat)).map Msg.chunk)).lastProgress
      = some 100 ∧
    (recvRun recvInit
        (Msg.metadataMsg nm mi 0 :: (senderChunks ([] : List Nat)).map Msg.chunk)).assembled
      = some [] ∧
    receivedSize (recvRun recvInit
        (Msg.metadataMsg nm mi 0 :: (senderChunks ([] : List Nat)).map Msg.chunk)).chunks = 0 := by
  rw [senderChunks_nil]
  refine ⟨rfl, rfl, ?_, ?_, ?_, ?_⟩ <;>
    simp [recvRun, recvStep, recvInit, receivedSize]

/-- C4 counterexample: the slicing loop applied to a zero-length source
produces one (empty) chunk, not an empty chunk sequence. -/
theorem senderChunks_nil_not_empty :
    senderChunks ([] : List Nat) = [[]] ∧ senderChunks ([] : List Nat) ≠ [] := by
  refine ⟨senderChunks_nil, ?_⟩
  rw [senderChunks_nil]
  simp

/-- C4 amended: sequential slicing with the 64 KiB chunk size covers the
source exactly once in order (concatenating the chunks in order gives
back the source), every chunk holds at most chunkSize bytes, every chunk
except possibly the last holds exactly chunkSize bytes, every chunk of a
nonempty source is nonempty, and a zero-length source yields exactly one
empty chunk rather than none. -/
theorem senderChunks_roundtrip (s : List Nat) :
    reassemble (senderChunks s) = s ∧
    (∀ c ∈ senderChunks s, c.length ≤ chunkSize) ∧
    senderChunks ([] : List Nat) = [[]] ∧
    (s ≠ [] → ∀ c ∈ senderChunks s, c ≠ []) ∧
    (∀ c ∈ (senderChunks s).dropLast, c.length = chunkSize) :=
  ⟨senderChunks_flatten s,
   senderChunks_mem_length s,
   senderChunks_nil,
   fun hs => senderChunks_mem_ne_nil s hs,
   senderChunks_dropLast_length s⟩

/-- C4 witness for the amended theorem at a three-byte source. -/
theorem senderChunks_roundtrip_witness :
    reassemble (senderChunks [1, 2, 3]) = [1, 2, 3] ∧
    [1, 2, 3].length ≤ chunkSize ∧
    ([1, 2, 3] : List Nat) ≠ [] := by
  have h := senderChunks_roundtrip [1, 2, 3]
  have hmem : [1, 2, 3] ∈ senderChunks [1, 2, 3] := by
    rw [senderChunks_eq]
    norm_num [chunkSize]
  exact ⟨h.1, h.2.1 [1, 2, 3] hmem, by simp⟩

/-- C5 counterexample: a chunk arriving before any metadata is appended
to the buffer and counted, the session stays live (there is no failure
transition in the handler), and no metadata is recorded. -/
theorem recv_chunk_before_metadata_buffered :
    (recvRun recvInit [Msg.chunk [1, 2, 3]]).chunks = [[1, 2, 3]] ∧
    receivedSize (recvRun recvInit [Msg.chunk [1, 2, 3]]).chunks = 3 ∧
    (recvRun recvInit [Msg.chunk [1, 2, 3]]).done = false ∧
    (recvRun recvInit [Msg.chunk [1, 2, 3]]).meta = none := by
  decide

/-- C5 amended: a chunk arriving before the metadata message is silently
appended to the buffer and its length counted, with no failure
transition and no report; once metadata later arrives, the early bytes
count toward the completion threshold. -/
theorem recv_premetadata_chunk (b : List Nat) (nm mi : String) (sz : Nat) (c : List Nat) :
    (recvRun recvInit [Msg.chunk b]).chunks = [b] ∧
    (recvRun recvInit [Msg.chunk b]).done = false ∧
    (recvRun recvInit [Msg.chunk b]).lastProgress = none ∧
    (recvRun recvInit [Msg.chunk b]).meta = none ∧
    receivedSize (recvRun recvInit [Msg.chunk b]).chunks = b.length ∧
    ((recvRun recvInit
        [Msg.chunk b, Msg.metadataMsg nm mi sz, Msg.chunk c]).done = true
      ↔ sz ≤ b.length + c.length) := by
  refine ⟨?_, ?_, ?_, ?_, ?_, ?_⟩
  · simp [recvRun, recvStep, recvInit]
  · simp [recvRun, recvStep, recvInit]
  · simp [recvRun, recvStep, recvInit]
  · simp [recvRun, recvStep, recvInit]
  · simp [recvRun, recvStep, recvInit, receivedSize]
  · by_cases hle : sz ≤ b.length + c.length
    · simp [recvRun, recvStep, recvInit, receivedSize, hle]
    · simp [recvRun, recvStep, recvInit, receivedSize, hle]

/-- C6: the sender transmits nothing over any run prefix in which no
ready object has been received; in particular the open callback sends
nothing, and the first ready object triggers the ready acknowledgment
followed by the metadata message and the chunks, in that order. -/
theorem sender_gates_on_ready (nm mi : String) (content : List Nat)
    (es : List SendEvent) (n : Nat)
    (h : SendEvent.recvControl "ready" ∉ es.take n) :
    (senderRun nm mi content senderInit (es.take n)).2 = [] ∧
    (senderStep nm mi content senderInit SendEvent.onOpen).2 = [] ∧
    (senderStep nm mi content senderInit (SendEvent.recvControl "ready")).2
      = OutMsg.readyAck :: OutMsg.metadata nm mi content.length
          :: (senderChunks content).map OutMsg.chunk := by
  refine ⟨?_, rfl, ?_⟩
  · rw [senderRun_no_ready nm mi content (es.take n) senderInit h]
  · simp [senderStep, senderInit, transferMsgs]

/-- C6 witness: a run consisting of the open callback alone sends
nothing. -/
theorem sender_gates_on_ready_witness :
    (SendEvent.recvControl "ready" ∉ ([SendEvent.onOpen] : List SendEvent).take 5) ∧
    (senderRun "f" "t" [1, 2] senderInit
        (([SendEvent.onOpen] : List SendEvent).take 5)).2 = [] :=
  ⟨by decide,
   (sender_gates_on_ready "f" "t" [1, 2] [SendEvent.onOpen] 5 (by decide)).1⟩

/-- C7: over any run from the initial sender state, exactly one metadata
message (hence one transfer stream) is emitted when at least one ready
object is received, and none otherwise; a ready object arriving when the
guard is already up is a no-op. -/
theorem sender_ready_idempotent (nm mi : String) (content : List Nat)
    (es : List SendEvent) :
    (((senderRun nm mi content senderInit es).2).filter isMetadataOut).length
      = (if SendEvent.recvControl "ready" ∈ es then 1 else 0) ∧
    senderStep nm mi content { isReady := true } (SendEvent.recvControl "ready")
      = ({ isReady := true }, []) := by
  constructor
  · rw [senderRun_meta_count nm mi content es senderInit]
    simp [senderInit]
  · simp [senderStep]

/-- C7 witness: two ready objects in a row initiate exactly one
stream. -/
theorem sender_ready_idempotent_witness :
    (((senderRun "f" "t" [1, 2] senderInit
        [SendEvent.recvControl "ready", SendEvent.recvControl "ready"]).2).filter
          isMetadataOut).length = 1 := by
  have h := (sender_ready_idempotent "f" "t" [1, 2]
    [SendEvent.recvControl "ready", SendEvent.recvControl "ready"]).1
  rw [h]
  decide

/-- C8: a get-active-peers query leaves the registry unchanged and is
answered with exactly one reply, addressed to the querying connection
only, whose content is the current snapshot; the snapshot holds exactly
the identifiers currently registered, with no stale or missing entries.
The query handler is modelled from the spec, the server source under src
having no such handler although the client emits the query. -/
theorem registry_query_reply (m : UsersMap) (sid : String) :
    (regStep m (RegOp.query sid)).1 = m ∧
    (regStep m (RegOp.query sid)).2 = [RegOut.reply sid (snapshot m)] ∧
    (∀ pid, pid ∈ snapshot m ↔ ∃ s, (s, pid) ∈ m) :=
  ⟨rfl, rfl, fun pid => mem_snapshot m pid⟩

/-- C9: a disconnect of a connection that never registered leaves the
users map unchanged (the delete is a no-op), and the broadcast that the
spec attaches to deregistration carries the unchanged snapshot, every
identifier of which belongs to some currently registered connection, so
no phantom identifier is ever broadcast. -/
theorem deregister_unregistered_noop (m : UsersMap) (sid : String)
    (h : ∀ p ∈ m, p.1 ≠ sid) :
    delUser m sid = m ∧
    (regStep m (RegOp.disconnect sid)).1 = m ∧
    (regStep m (RegOp.disconnect sid)).2
      = [RegOut.broadcast (m.map Prod.fst) (snapshot m)] ∧
    (∀ pid, pid ∈ snapshot m → ∃ s, (s, pid) ∈ m) := by
  have hdel : delUser m sid = m := by
    apply List.filter_eq_self.mpr
    intro a ha
    exact decide_eq_true (h a ha)
  refine ⟨hdel, ?_, ?_, fun pid hp => (mem_snapshot m pid).mp hp⟩
  · show delUser m sid = m
    exact hdel
  · show [broadcastOut (delUser m sid)] = _
    rw [hdel]
    rfl

/-- C9 witness: disconnecting a never-registered socket next to one
registered peer. -/
theorem deregister_unregistered_noop_witness :
    (∀ p ∈ ([("s1", "alice")] : UsersMap), p.1 ≠ "s2") ∧
    delUser ([("s1", "alice")] : UsersMap) "s2" = [("s1", "alice")] :=
  ⟨by decide,
   (deregister_unregistered_noop [("s1", "alice")] "s2" (by decide)).1⟩

/-- C10: in the earliest revision the metadata object literal assigns
the key type twice, so the record actually sent carries the file MIME
type as its discriminator; for every file whose MIME type is not the
literal string metadata, the receiver discriminator check rejects the
record, the record is appended to the chunk buffer, the receivedSize
reduce is NaN from then on (it adds an undefined byteLength), no
metadata size is ever recorded, and the transfer never completes at any
point of the stream. -/
theorem v0_duplicate_type_key_breaks_transfer (f : JsFile) (h : f.mime ≠ "metadata") :
    objGet (metadataMsgV0 f) "type" = some (JsVal.str f.mime) ∧
    dataTypeIsMetadata (MsgV0.record (metadataMsgV0 f)) = false ∧
    (∀ n : Nat, (recvV0Run recvV0Init ((sendStreamV0 f).take n)).done = false) ∧
    (recvV0Run recvV0Init (sendStreamV0 f)).chunks = sendStreamV0 f ∧
    (recvV0Run recvV0Init (sendStreamV0 f)).metaSize = none ∧
    receivedSizeV0 (sendStreamV0 f) = JsNum.nan := by
  have hall : ∀ m ∈ sendStreamV0 f, dataTypeIsMetadata m = false :=
    sendStreamV0_no_meta f h
  have hfull := recvV0Run_no_meta (sendStreamV0 f) recvV0Init hall rfl rfl
  refine ⟨objGet_metadataMsgV0_type f,
          dataTypeIsMetadata_metadataMsgV0 f h, ?_, ?_, hfull.1, ?_⟩
  · intro n
    have htake : ∀ m ∈ (sendStreamV0 f).take n, dataTypeIsMetadata m = false :=
      fun m hm => hall m (List.take_subset n _ hm)
    exact (recvV0Run_no_meta ((sendStreamV0 f).take n) recvV0Init htake rfl rfl).2.1
  · rw [hfull.2.2]
    rfl
  · exact receivedSizeV0_record_first (metadataMsgV0 f) _

/-- C10 witness: a plain text file of three bytes. -/
theorem v0_duplicate_type_key_witness :
    ((⟨"a.txt", "text/plain", [1, 2, 3]⟩ : JsFile).mime ≠ "metadata") ∧
    objGet (metadataMsgV0 ⟨"a.txt", "text/plain", [1, 2, 3]⟩) "type"
      = some (JsVal.str "text/plain") ∧
    (recvV0Run recvV0Init
        ((sendStreamV0 ⟨"a.txt", "text/plain", [1, 2, 3]⟩).take 2)).done = false :=
  ⟨by decide,
   (v0_duplicate_type_key_breaks_transfer ⟨"a.txt", "text/plain", [1, 2, 3]⟩ (by decide)).1,
   (v0_duplicate_type_key_breaks_transfer ⟨"a.txt", "text/plain", [1, 2, 3]⟩ (by decide)).2.2.1 2⟩

/-- C1 witness: a register, a disconnect and a query from the empty map
yield exactly two broadcasts. -/
theorem registry_broadcast_per_change_witness :
    ((regRun [] [RegOp.register "s1" "alice", RegOp.disconnect "s1",
        RegOp.query "s2"]).2.filter isBroadcast).length
      = ([RegOp.register "s1" "alice", RegOp.disconnect "s1",
          RegOp.query "s2"].filter isChange).length ∧
    ([RegOp.register "s1" "alice", RegOp.disconnect "s1",
        RegOp.query "s2"].filter isChange).length = 2 :=
  ⟨(registry_broadcast_per_change []
      [RegOp.register "s1" "alice", RegOp.disconnect "s1", RegOp.query "s2"]).1,
   by decide⟩

/-- C3 witness for the amended theorem: metadata of size 0 alone does
not complete, metadata followed by the single empty sender chunk
does. -/
theorem recv_zero_size_witness :
    (recvRun recvInit [Msg.metadataMsg "x" "y" 0]).done = false ∧
    (recvRun recvInit
        (Msg.metadataMsg "x" "y" 0 :: (senderChunks ([] : List Nat)).map Msg.chunk)).done
      = true :=
  ⟨(recv_zero_size_completes_on_chunk "x" "y").1,
   (recv_zero_size_completes_on_chunk "x" "y").2.2.1⟩

/-- C5 witness for the amended theorem: a one-byte chunk ahead of the
metadata is buffered and counts toward the later threshold of 1. -/
theorem recv_premetadata_chunk_witness :
    (recvRun recvInit [Msg.chunk [9]]).done = false ∧
    ((recvRun recvInit
        [Msg.chunk [9], Msg.metadataMsg "n" "m" 1, Msg.chunk []]).done = true
      ↔ 1 ≤ ([9] : List Nat).length + ([] : List Nat).length) :=
  ⟨(recv_premetadata_chunk [9] "n" "m" 1 []).2.1,
   (recv_premetadata_chunk [9] "n" "m" 1 []).2.2.2.2.2⟩

/-- C8 witness: a query against a one-entry map is answered to the
querying socket only with the one registered identifier. -/
theorem registry_query_reply_witness :
    (regStep ([("s1", "alice")] : UsersMap) (RegOp.query "s2")).2
      = [RegOut.reply "s2" (snapshot [("s1", "alice")])] ∧
    ("alice" ∈ snapshot ([("s1", "alice")] : UsersMap)
      ↔ ∃ s, (s, "alice") ∈ ([("s1", "alice")] : UsersMap)) :=
  ⟨(registry_query_reply [("s1", "alice")] "s2").2.1,
   (registry_query_reply [("s1", "alice")] "s2").2.2 "alice"⟩
